import Mathlib

/-!
Verification of the hivemind MoE expert-server subsystem
(`hivemind/moe/server/{server,checkpoints,bnb_quantization,hf_loader,module_wrapper}.py`).

Each definition below is a shallow embedding of one function (or of the slice of a
function that the claims need) of the Python source; the doc comment of every
definition names the file and lines it embeds.  Machine-level details that the
claims do not touch (tensor contents, devices, network transport) are abstracted
by type parameters or by small enumerations, as noted per definition.
-/

/- ===================== Python modelling prelude ===================== -/

/-- Model of Python `range(a, b)` over Python's arbitrary-precision integers:
the list `[a, a+1, ..., b-1]`, empty when `b ≤ a`. -/
def pyRange (a b : Int) : List Int :=
  (List.range (b - a).toNat).map (fun (i : Nat) => a + (i : Int))

/-- Fuel-driven worker for `pyReplace`.  Scans the haystack left to right; at the
first position where the (non-empty) needle is a prefix it emits the replacement
and skips the matched characters, exactly like CPython's `str.replace` with the
default count.  The fuel is set to the haystack length by the wrapper, which is
enough for the scan to finish, so the `0` case is never reached on the wrapper's
calls. -/
def pyReplaceAux (needle repl : List Char) : Nat → List Char → List Char
  | _, [] => []
  | 0, hay => hay
  | fuel + 1, c :: rest =>
    if needle ≠ [] && needle.isPrefixOf (c :: rest) then
      repl ++ pyReplaceAux needle repl fuel (rest.drop (needle.length - 1))
    else
      c :: pyReplaceAux needle repl fuel rest

/-- Model of Python `hay.replace(needle, repl)` for a non-empty needle
(every needle used in this development is a literal placeholder, never empty). -/
def pyReplace (hay needle repl : String) : String :=
  ⟨pyReplaceAux needle.data repl.data hay.data.length hay.data⟩

/-- Model of Python `pattern.format(expert_id=expert_id, layer_id=layer_id)`
(server.py line 377) for patterns whose only replacement fields are the
`\x7bexpert_id\x7d` and `\x7blayer_id\x7d` placeholders, which is the pattern contract the
server documents (`expert_pattern`, e.g. `myprefix.\x7blayer_id\x7d.\x7bexpert_id\x7d`).
Integers render in decimal exactly as Python renders them. -/
def pyFormatUid (pattern : String) (layer_id expert_id : Int) : String :=
  pyReplace (pyReplace pattern "\x7bexpert_id\x7d" (toString expert_id))
    "\x7blayer_id\x7d" (toString layer_id)

/-- Lookup in an association list, modelling a Python `dict` read `d[k]`:
`some` of the stored value, or `none` where Python raises `KeyError`. -/
def lookupD {α : Type} (d : List (String × α)) (k : String) : Option α :=
  (d.find? (fun p => p.1 == k)).map (fun p => p.2)

/- ===================== Expert UID generation (server.py) ===================== -/

/-- Embeds class `ExpertUID` (server.py lines 355-360): the identifier triple. -/
structure ExpertUID where
  uid : String
  expert_id : Int
  layer_id : Int
deriving DecidableEq, Repr

/-- Embeds `_generate_uids` (server.py lines 362-393).
The two nested `for` loops build, for every `layer_id` in
`range(layers_start, num_layers)` and every `expert_id` in `range(num_experts)`,
one `ExpertUID` whose string is the rendered pattern.  If a DHT was supplied the
code then calls `get_experts(dht, uids)` (an external DHT facility, modelled as a
lookup function from uid string to an optional registration) and raises
`NameError` as soon as any result is not `None`; otherwise it returns the list.
The Python parameter `attempts_per_expert` (default 10) is carried but never
read, exactly as in the source. -/
def generate_uids (num_experts num_layers layers_start : Int) (expert_pattern : String)
    (dht : Option (String → Option String)) (attempts_per_expert : Nat) :
    Except String (List ExpertUID) :=
  let new_uids := (pyRange layers_start num_layers).flatMap (fun layer_id =>
    (pyRange 0 num_experts).map (fun expert_id =>
      ⟨pyFormatUid expert_pattern layer_id expert_id, expert_id, layer_id⟩))
  match dht with
  | none => .ok new_uids
  | some lookup =>
      let found := new_uids.map (fun ui => lookup ui.uid)
      if found.any (fun f => f.isSome) then .error "NameError" else .ok new_uids

/-- The uid list `_generate_uids` builds before the DHT check (the body of the
two nested loops of server.py lines 381-385). -/
def generatedList (num_experts num_layers layers_start : Int) (expert_pattern : String) :
    List ExpertUID :=
  (pyRange layers_start num_layers).flatMap (fun layer_id =>
    (pyRange 0 num_experts).map (fun expert_id =>
      ⟨pyFormatUid expert_pattern layer_id expert_id, expert_id, layer_id⟩))

/- ============ Weight-restoration dispatch (server.py `_load_expert_weights`) ============ -/

/-- Python truthiness of the factory's `checkpoint_dir : Optional[Path]` value:
`None` is falsy; a `pathlib.Path` object defines no `__bool__`/`__len__`, so any
`Path` instance is truthy. -/
def pyTruthyOptPath : Option String → Bool
  | none => false
  | some _ => true

/-- Python truthiness of the factory's `hugginface_rep : str = None` value:
`None` and the empty string are falsy, any other string is truthy. -/
def pyTruthyOptStr : Option String → Bool
  | none => false
  | some s => !(s == "")

/-- The restoration action `Server._load_expert_weights` performs: a local
checkpoint restore (`load_expert`), a HuggingFace restore
(`load_expert_from_hf`), or nothing. -/
inductive LoadAction where
  | fromCheckpoint (expert_uid : String) (checkpoint_dir : String)
  | fromHF (rep : String) (expert_id layer_id : Int)
  | noRestore
deriving DecidableEq, Repr

/-- Embeds `Server._load_expert_weights` (server.py lines 228-233) at the level
of which restoration call is dispatched:
`if checkpoint_dir and not hugginface_rep:` call
`load_expert(expert, expert_uid.uid, checkpoint_dir)`;
`elif not checkpoint_dir and hugginface_rep:` call
`load_expert_from_hf(expert, hugginface_rep, expert_uid.expert_id, expert_uid.layer_id)`;
otherwise fall through (no restoration, no error). -/
def load_expert_weights (expert_uid : ExpertUID) (checkpoint_dir : Option String)
    (hugginface_rep : Option String) : LoadAction :=
  if pyTruthyOptPath checkpoint_dir && !pyTruthyOptStr hugginface_rep then
    .fromCheckpoint expert_uid.uid (checkpoint_dir.getD "")
  else if !pyTruthyOptPath checkpoint_dir && pyTruthyOptStr hugginface_rep then
    .fromHF (hugginface_rep.getD "") expert_uid.expert_id expert_uid.layer_id
  else
    .noRestore

/- ============ Python positional-call binding (for checkpoints.py `load_expert`) ============ -/

/-- The positional parameter names a Python `def` header declares, in order.
`checkpoints.py` line 79 reads
`def load_expert(expert: nn,Module, expert_name: str, checkpoint_dir: Path):`
— because of the comma in the annotation `nn,Module` this header declares FOUR
positional parameters (`expert` annotated `nn`, then `Module`, `expert_name`,
`checkpoint_dir`), none with a default. -/
def load_expert_params : List String := ["expert", "Module", "expert_name", "checkpoint_dir"]

/-- Python call binding for a call with `nargs` positional arguments against a
parameter list of which the last `ndefaults` have defaults: the call binds (and
the body runs) exactly when `len(params) - ndefaults ≤ nargs ≤ len(params)`;
otherwise Python raises `TypeError` before the body is entered. -/
def pyCallBinds (params : List String) (ndefaults nargs : Nat) : Bool :=
  decide (params.length - ndefaults ≤ nargs) && decide (nargs ≤ params.length)

/-- Embeds the BODY of `load_expert` (checkpoints.py lines 80-85), which is what
runs once a call has bound: given the expert's current parameter state and the
contents of `checkpoint_dir/expert_name/module.safetensors` when that file
exists, it returns the loaded state when the checkpoint is present, and leaves
the expert's state unchanged (logging a warning, returned as the Bool) when it
is absent. Tensor state dictionaries are abstracted by a type parameter. -/
def load_expert_body {State : Type} (current : State) (latest_checkpoint : Option State) :
    State × Bool :=
  match latest_checkpoint with
  | some loaded => (loaded, false)
  | none => (current, true)

/- ============ Quantization cast step (bnb_quantization.py `quantization`) ============ -/

/-- Torch dtypes, restricted to what the quantization claims distinguish. -/
inductive DType where
  | float32
  | float16
  | int64
deriving DecidableEq, Repr

/-- Model of `torch.is_floating_point`. -/
def is_floating_point : DType → Bool
  | .float32 => true
  | .float16 => true
  | .int64 => false

/-- Model of `accelerate.utils.BnbQuantizationConfig` with the fields this
subsystem reads. -/
structure BnbQuantizationConfig where
  load_in_4bit : Bool
  load_in_8bit : Bool
  bnb_4bit_compute_dtype : DType
  bnb_4bit_use_double_quant : Bool
  bnb_4bit_quant_type : String
  torch_dtype : DType

/-- Embeds `BASE_QUANT_CONFIG` (bnb_quantization.py line 12):
`BnbQuantizationConfig(load_in_4bit=True, bnb_4bit_compute_dtype=torch.float16,
bnb_4bit_use_double_quant=True, bnb_4bit_quant_type="nf4")`; `load_in_8bit`
defaults to false and the config's `torch_dtype` resolves to the 4-bit compute
dtype, 16-bit float. -/
def BASE_QUANT_CONFIG : BnbQuantizationConfig :=
  ⟨true, false, .float16, true, "nf4", .float16⟩

/-- Model of the expression `param.to(dtype)`: `Tensor.to` returns a NEW tensor
with the requested dtype and does not mutate the receiver. -/
def tensor_to (_param : DType) (dtype : DType) : DType := dtype

/-- Embeds the cast loop of `quantization` (bnb_quantization.py lines 39-42):
`dtype = BASE_QUANT_CONFIG.torch_dtype` and then
`for name, param in model.state_dict().items(): if torch.is_floating_point(param): param.to(dtype)`.
The loop evaluates `param.to(dtype)` (here `tensor_to`) but never assigns the
result anywhere, so every entry of the state dict is returned as it was.  A
model's parameter state is abstracted to the map from parameter name to dtype,
which is all this loop could affect. -/
def quantization_cast_loop (state_dict : List (String × DType)) : List (String × DType) :=
  state_dict.map (fun nv =>
    if is_floating_point nv.2 then
      let _discarded := tensor_to nv.2 BASE_QUANT_CONFIG.torch_dtype
      nv
    else nv)

/- ============ HuggingFace loader (hf_loader.py) ============ -/

/-- Embeds `mixtral_rules` (hf_loader.py lines 24-29): the mapping from the
three fully qualified Mixtral source parameter names to the local expert
parameter names, in the source's insertion order. -/
def mixtral_rules (layer_id expert_id : Int) : List (String × String) :=
  [("model.layers." ++ toString layer_id ++ ".block_sparse_moe.experts."
      ++ toString expert_id ++ ".w1.weight", "block.w1.weight"),
   ("model.layers." ++ toString layer_id ++ ".block_sparse_moe.experts."
      ++ toString expert_id ++ ".w2.weight", "block.w2.weight"),
   ("model.layers." ++ toString layer_id ++ ".block_sparse_moe.experts."
      ++ toString expert_id ++ ".w3.weight", "block.w3.weight")]

/-- Embeds `get_state_dict_by_key` (hf_loader.py lines 45-51):
`filename = weigths_map[key]` (a `dict` read, `KeyError` when absent, modelled
as `none`), then `hf_hub_download` + `load_safetensor`, modelled by the
`shards` map from shard filename to that shard's name-to-tensor dictionary. -/
def get_state_dict_by_key {T : Type} (key : String) (weigths_map : List (String × String))
    (shards : String → List (String × T)) : Option (List (String × T)) :=
  (lookupD weigths_map key).map shards

/-- Embeds `get_expert_state_dict` (hf_loader.py lines 53-54): the `dict` read
`state_dict[key]`. -/
def get_expert_state_dict {T : Type} (state_dict : List (String × T)) (key : String) :
    Option T :=
  lookupD state_dict key

/-- The loop of `_load_weights_from_hf` (hf_loader.py lines 60-65): for each
`(key, expert_key)` of the rule, in order, fetch the shard the weight map names
for `key`, extract the tensor stored under `key`, and record it under
`expert_key`; any failed dictionary read aborts with the exception (`none`). -/
def hf_build_state_dict {T : Type} (weigths_map : List (String × String))
    (shards : String → List (String × T)) :
    List (String × String) → Option (List (String × T))
  | [] => some []
  | (key, expert_key) :: rest => do
      let state_dict ← get_state_dict_by_key key weigths_map shards
      let value ← get_expert_state_dict state_dict key
      let tail ← hf_build_state_dict weigths_map shards rest
      pure ((expert_key, value) :: tail)

/-- Embeds `_load_weights_from_hf` (hf_loader.py lines 56-67): builds the rule
with `mixtral_rules(layer_id, expert_id)`, assembles the renamed state
dictionary, and loads it into the expert via `expert.load_state_dict`
(modelled by returning the dictionary that is loaded).  The repository index
download is modelled by passing its `weight_map` content directly. -/
def load_weights_from_hf {T : Type} (expert_id layer_id : Int)
    (weigths_map : List (String × String)) (shards : String → List (String × T)) :
    Option (List (String × T)) :=
  hf_build_state_dict weigths_map shards (mixtral_rules layer_id expert_id)

/- ============ Recursive linear replacement (bnb_quantization.py `_replace_with_bnb_layers`) ============ -/

/-- Python substring test `needle in hay` on character lists: true iff `needle`
occurs contiguously in `hay` (the empty needle occurs everywhere). -/
def containsSub : List Char → List Char → Bool
  | needle, [] => needle.isEmpty
  | needle, c :: rest => needle.isPrefixOf (c :: rest) || containsSub needle rest

/-- Python substring test `needle in hay` for strings. -/
def pyInStr (needle hay : String) : Bool := containsSub needle.data hay.data

mutual
/-- A PyTorch module tree as `_replace_with_bnb_layers` observes it: a plain
dense layer (`torch.nn.Linear`), its 4-bit replacement (`bnb.nn.Linear4bit`,
which also subclasses `nn.Linear`), or any other module, seen only through its
named children.  Weight/bias tensor contents and the `requires_grad` flag are
not modelled; a linear layer is characterized by its feature counts and bias
presence, which is what the replacement construction reads. -/
inductive PyModule where
  | linear (in_features out_features : Nat) (hasBias : Bool)
  | linear4bit (in_features out_features : Nat) (hasBias : Bool)
  | container (children : NamedChildren)
/-- The named-children list of a module (`model.named_children()` order). -/
inductive NamedChildren where
  | nil
  | cons (name : String) (m : PyModule) (rest : NamedChildren)
end

/-- One step of the exclusion loop (bnb_quantization.py lines 95-100): the key
blocks replacement when `((key in current_key_name_str) and (key + "." in
current_key_name_str)) or key == current_key_name_str`. -/
def key_blocks (key current_key_name_str : String) : Bool :=
  (pyInStr key current_key_name_str && pyInStr (key ++ ".") current_key_name_str)
    || key == current_key_name_str

/-- The `proceed` flag after the loop over `modules_to_not_convert`
(bnb_quantization.py lines 94-100): true iff no key blocks. -/
def proceed_replacement (modules_to_not_convert : List String)
    (current_key_name_str : String) : Bool :=
  modules_to_not_convert.all (fun key => !(key_blocks key current_key_name_str))

/-- Embeds the recursion of `_replace_with_bnb_layers`
(bnb_quantization.py lines 86-135) over a module's named children, specialized
to `BASE_QUANT_CONFIG` (the only configuration any caller in this repository
passes: `load_in_4bit = True`, `load_in_8bit = False`, so the `Linear8bitLt`
branch and the both-false `ValueError` are dead and a replaced layer is always
a `Linear4bit` with the same feature counts and bias presence).  For each child
`(name, module)`: if it is an `nn.Linear` instance (which includes
`bnb.nn.Linear4bit`) and `name not in modules_to_not_convert` and the exclusion
loop lets it proceed, it is replaced in the parent under the same name and the
flag is set; then, if the original child has children, the function recurses
into it with the child's name pushed on `current_key_name`.  Returns the new
children and the has-been-replaced flag. -/
def replace_with_bnb_children (modules_to_not_convert : List String)
    (current_key_name : List String) : NamedChildren → NamedChildren × Bool
  | .nil => (.nil, false)
  | .cons name (.linear i o b) rest =>
      let current_key_name_str := String.intercalate "." (current_key_name ++ [name])
      let doRepl := !(modules_to_not_convert.contains name)
        && proceed_replacement modules_to_not_convert current_key_name_str
      let entry := if doRepl then PyModule.linear4bit i o b else PyModule.linear i o b
      let r := replace_with_bnb_children modules_to_not_convert current_key_name rest
      (.cons name entry r.1, doRepl || r.2)
  | .cons name (.linear4bit i o b) rest =>
      let current_key_name_str := String.intercalate "." (current_key_name ++ [name])
      let doRepl := !(modules_to_not_convert.contains name)
        && proceed_replacement modules_to_not_convert current_key_name_str
      let r := replace_with_bnb_children modules_to_not_convert current_key_name rest
      (.cons name (PyModule.linear4bit i o b) r.1, doRepl || r.2)
  | .cons name (.container cs) rest =>
      let sub :=
        match cs with
        | .nil => (NamedChildren.nil, false)
        | .cons n0 m0 cs0 =>
            replace_with_bnb_children modules_to_not_convert (current_key_name ++ [name])
              (.cons n0 m0 cs0)
      let r := replace_with_bnb_children modules_to_not_convert current_key_name rest
      (.cons name (PyModule.container sub.1) r.1, sub.2 || r.2)

/-- The exclusion condition claim C3 asserts, written from the claim's words: a
child's dotted path is exempt exactly when it equals an exclusion entry or an
exclusion entry is a prefix of the path ending at a path-segment boundary. -/
def claimed_path_excluded (modules_to_not_convert : List String) (path_str : String) : Bool :=
  modules_to_not_convert.any (fun key =>
    key == path_str || (key ++ ".").data.isPrefixOf path_str.data)

/- ============ Filesystem model (checkpoints.py `copy_tree` / `store_experts`) ============ -/

mutual
/-- A filesystem object as `copy_tree` observes it: a regular file or a
directory of named entries.  File contents are abstracted to a `Nat` tag
(`copy2` copies contents byte-for-byte; a symlink source is copied through to a
regular file with the target's contents, which is how `copy_tree`'s `copy2`
treats the staged `os.symlink` entries). -/
inductive FsTree where
  | file (content : Nat)
  | dir (entries : FsEntries)
/-- The named entries of a directory, in listing order. -/
inductive FsEntries where
  | nil
  | cons (name : String) (t : FsTree) (rest : FsEntries)
end

/-- Directory entry lookup by name (first match). -/
def fsLookup : FsEntries → String → Option FsTree
  | .nil, _ => none
  | .cons m t rest, n => if m = n then some t else fsLookup rest n

/-- Writing entry `n ↦ v` into a directory: replace the existing entry of that
name in place, or append a new one. -/
def fsUpdate : FsEntries → String → FsTree → FsEntries
  | .nil, n, v => .cons n v .nil
  | .cons m t rest, n, v => if m = n then .cons n v rest else .cons m t (fsUpdate rest n v)

/-- The entry names of a directory, in order. -/
def fsNames : FsEntries → List String
  | .nil => []
  | .cons m _ rest => m :: fsNames rest

/-- The entries of an optional lookup result when it is a directory, else the
empty directory — models `if not os.path.exists(dst): os.makedirs(dst)`
creating an absent destination directory before `copy_tree` writes into it. -/
def dirEntries : Option FsTree → FsEntries
  | some (.dir d) => d
  | _ => .nil

/-- Embeds `copy_tree` (checkpoints.py lines 32-41): create `dst` if absent,
then for every entry of `src` in order, recurse into subdirectories
(`os.path.isdir`) and `copy2` files (overwriting an existing destination file
of the same name).  The destination is threaded through as the accumulating
entry list; a kind conflict between a source and destination entry (file vs
directory under the same name), on which the real `copy_tree` raises or
`copy2` writes inside the directory, is outside the compatible domain the
theorems assume (`fsCompat`). -/
def copyTree : FsEntries → FsEntries → FsEntries
  | .nil, dst => dst
  | .cons name (.file c) rest, dst => copyTree rest (fsUpdate dst name (.file c))
  | .cons name (.dir sub) rest, dst =>
      copyTree rest (fsUpdate dst name (.dir (copyTree sub (dirEntries (fsLookup dst name)))))

/-- Lookup of a non-empty relative path in a directory tree. -/
def lookupPath : List String → FsEntries → Option FsTree
  | [], _ => none
  | [n], es => fsLookup es n
  | n :: p, es =>
      match fsLookup es n with
      | some (.dir sub) => lookupPath p sub
      | _ => none

/-- Kind-compatibility of a source tree with a destination tree: no name is a
file on one side and a directory on the other, recursively.  This is the domain
on which the `copyTree` model matches the Python `copy_tree` exactly (see
`copyTree`'s doc comment). -/
def fsCompat : FsEntries → FsEntries → Bool
  | .nil, _ => true
  | .cons name (.file _) rest, dst =>
      (match fsLookup dst name with
       | some (.dir _) => false
       | _ => true) && fsCompat rest dst
  | .cons name (.dir sub) rest, dst =>
      (match fsLookup dst name with
       | some (.file _) => false
       | some (.dir d) => fsCompat sub d
       | none => true) && fsCompat rest dst

mutual
/-- Well-formedness of a filesystem object: directory entry names are
duplicate-free at every level (true of any real directory listing). -/
def fsWfTree : FsTree → Bool
  | .file _ => true
  | .dir es => fsWf es
/-- Well-formedness of a directory entry list: names duplicate-free, entries
well-formed. -/
def fsWf : FsEntries → Bool
  | .nil => true
  | .cons name t rest => !((fsNames rest).contains name) && fsWfTree t && fsWf rest
end

/-- The timestamped module snapshot filename `store_experts` writes
(checkpoints.py line 70): `module_\x7btimestamp\x7d.safetensors`. -/
def mfileName (timestamp : String) : String := "module_" ++ timestamp ++ ".safetensors"

/-- The timestamped backend snapshot filename `store_experts` writes
(checkpoints.py line 71): `checkpoint_\x7btimestamp\x7d.safetensors`. -/
def cfileName (timestamp : String) : String := "checkpoint_" ++ timestamp ++ ".safetensors"

/-- The staged per-expert directory one `store_experts` cycle creates
(checkpoints.py lines 66-75): the timestamped module file, the timestamped
backend file, and the two stable names created with `os.symlink` (copied
through as regular files by the final `copy_tree`).  The two state dictionaries
are abstracted to content tags 0 (module) and 1 (backend). -/
def stagedExpertDir (timestamp : String) : FsEntries :=
  .cons (mfileName timestamp) (.file 0)
    (.cons (cfileName timestamp) (.file 1)
      (.cons "module.safetensors" (.file 0)
        (.cons "checkpoint_last.safetensors" (.file 1) .nil)))

/-- The staging directory tree one `store_experts` cycle builds inside its
`TemporaryDirectory`: one subdirectory per hosted expert name. -/
def stagingTree (experts : List String) (timestamp : String) : FsEntries :=
  experts.foldr (fun e acc => .cons e (.dir (stagedExpertDir timestamp)) acc) .nil

/-- Embeds one `store_experts` cycle (checkpoints.py lines 61-76) as its effect
on the checkpoint directory: stage every expert's snapshot under a fresh
temporary directory, then merge the staging tree into the checkpoint directory
with `copy_tree`. -/
def store_experts_fs (experts : List String) (timestamp : String) (ckpt : FsEntries) :
    FsEntries :=
  copyTree (stagingTree experts timestamp) ckpt

/-- N successive `store_experts` cycles with the given computed timestamps, in
order, against the same checkpoint directory. -/
def store_cycles (experts : List String) : List String → FsEntries → FsEntries
  | [], ckpt => ckpt
  | ts :: rest, ckpt => store_cycles experts rest (store_experts_fs experts ts ckpt)

/-- The per-expert checkpoint subdirectory contents after a further sequence of
store cycles, tracked in isolation: each cycle merges the staged snapshot
(`stagedExpertDir ts`) into the expert's current entries via `copy_tree`. -/
def entriesAfter : List String → FsEntries → FsEntries
  | [], es => es
  | ts :: rest, es => entriesAfter rest (copyTree (stagedExpertDir ts) es)

/- ===================== THEOREMS ===================== -/

theorem pyRange_nodup (a b : Int) : (pyRange a b).Nodup := by
  unfold pyRange
  apply List.Nodup.map _ (List.nodup_range _)
  intro i j h
  have h' : a + (i : Int) = a + (j : Int) := h
  omega

theorem length_pyRange (a b : Int) : (pyRange a b).length = (b - a).toNat := by
  rw [pyRange, List.length_map, List.length_range]

theorem mem_pyRange {a b x : Int} : x ∈ pyRange a b ↔ a ≤ x ∧ x < b := by
  constructor
  · intro hx
    simp only [pyRange, List.mem_map, List.mem_range] at hx
    obtain ⟨i, hi, rfl⟩ := hx
    omega
  · intro h
    obtain ⟨h1, h2⟩ := h
    simp only [pyRange, List.mem_map, List.mem_range]
    exact ⟨(x - a).toNat, by omega, by omega⟩

/-- Claim C5, amended.  `_generate_uids` called without a DHT never raises and
returns the deterministic layer-major Cartesian enumeration: the projection of
the result to `(layer_id, expert_id)` pairs is exactly the enumeration of
`[layers_start, num_layers) × [0, num_experts)` in layer-major order with no
pair repeated, every returned uid string is the pattern rendered at that
triple's indices, and the length is the product of the two range sizes.  For
the example (`num_experts = 3`, `num_layers = 2`, `layers_index_start = 0`,
pattern `x.\x7blayer_id\x7d.\x7bexpert_id\x7d`) the six uid strings are moreover pairwise
distinct.  (The original claim's clause that the uid strings are pairwise
distinct for EVERY pattern is false — see the counterexample theorem.) -/
theorem claim_C5_enumeration_amended :
    (∀ (ne nl ls : Int) (pat : String) (a : Nat), ∃ l : List ExpertUID,
      generate_uids ne nl ls pat none a = .ok l ∧
      l.length = (nl - ls).toNat * ne.toNat ∧
      l.map (fun u => (u.layer_id, u.expert_id)) =
        (pyRange ls nl).flatMap (fun lid => (pyRange 0 ne).map (fun eid => (lid, eid))) ∧
      (l.map (fun u => (u.layer_id, u.expert_id))).Nodup ∧
      (∀ u ∈ l, u.uid = pyFormatUid pat u.layer_id u.expert_id)) ∧
    generate_uids 3 2 0 "x.\x7blayer_id\x7d.\x7bexpert_id\x7d" none 10 =
      .ok [⟨"x.0.0", 0, 0⟩, ⟨"x.0.1", 1, 0⟩, ⟨"x.0.2", 2, 0⟩,
           ⟨"x.1.0", 0, 1⟩, ⟨"x.1.1", 1, 1⟩, ⟨"x.1.2", 2, 1⟩] ∧
    (([⟨"x.0.0", 0, 0⟩, ⟨"x.0.1", 1, 0⟩, ⟨"x.0.2", 2, 0⟩,
       ⟨"x.1.0", 0, 1⟩, ⟨"x.1.1", 1, 1⟩, ⟨"x.1.2", 2, 1⟩] : List ExpertUID).map
        (fun u => u.uid)).Nodup := by
  refine ⟨?_, rfl, by decide⟩
  intro ne nl ls pat a
  refine ⟨generatedList ne nl ls pat, rfl, ?_, ?_, ?_, ?_⟩
  · simp only [generatedList, List.length_flatMap, Function.comp_def, List.length_map,
      length_pyRange, List.map_const', List.sum_replicate, smul_eq_mul, Int.sub_zero]
  · simp only [generatedList, List.map_flatMap, List.map_map]
    rfl
  · have hprod : ((pyRange ls nl).flatMap (fun lid => (pyRange 0 ne).map
        (fun eid => (lid, eid)))).Nodup := by
      have := List.Nodup.product (pyRange_nodup ls nl) (pyRange_nodup 0 ne)
      simpa [List.product, SProd.sprod] using this
    have hmap : (generatedList ne nl ls pat).map (fun u => (u.layer_id, u.expert_id)) =
        (pyRange ls nl).flatMap (fun lid => (pyRange 0 ne).map (fun eid => (lid, eid))) := by
      simp only [generatedList, List.map_flatMap, List.map_map]
      rfl
    rw [hmap]
    exact hprod
  · intro u hu
    simp only [generatedList, List.mem_flatMap, List.mem_map] at hu
    obtain ⟨lid, _, eid, _, rfl⟩ := hu
    rfl

/-- Claim C5, counterexample to the original statement: for the pattern `"x"`
(no placeholders) with `num_experts = 2`, `num_layers = 1`, `layers_start = 0`,
`_generate_uids` without a DHT returns two triples whose uid strings are BOTH
`"x"`, so the claim's clause that no two returned uid strings are equal fails. -/
theorem claim_C5_counterexample :
    generate_uids 2 1 0 "x" none 10 = .ok [⟨"x", 0, 0⟩, ⟨"x", 1, 0⟩] ∧
    ¬ (([⟨"x", 0, 0⟩, ⟨"x", 1, 0⟩] : List ExpertUID).map (fun u => u.uid)).Nodup := by
  exact ⟨rfl, by decide⟩

/-- Claim C6: with a DHT supplied, `_generate_uids` raises a `NameError` as soon
as the DHT lookup of any generated uid is non-absent, and returns the full
generated list when every lookup is absent (server.py lines 388-393). -/
theorem claim_C6_dht_conflict (ne nl ls : Int) (pat : String)
    (lookup : String → Option String) (a : Nat) :
    ((∃ u ∈ generatedList ne nl ls pat, (lookup u.uid).isSome = true) →
      generate_uids ne nl ls pat (some lookup) a = .error "NameError") ∧
    ((∀ u ∈ generatedList ne nl ls pat, lookup u.uid = none) →
      generate_uids ne nl ls pat (some lookup) a = .ok (generatedList ne nl ls pat)) := by
  constructor
  · intro h
    obtain ⟨u, hu, hs⟩ := h
    simp only [generate_uids, generatedList] at *
    rw [if_pos]
    rw [List.any_eq_true]
    exact ⟨lookup u.uid, List.mem_map_of_mem _ hu, hs⟩
  · intro h
    simp only [generate_uids, generatedList] at *
    rw [if_neg]
    rw [List.any_eq_true]
    rintro ⟨f, hf, hs⟩
    rw [List.mem_map] at hf
    obtain ⟨u, hu, rfl⟩ := hf
    rw [h u hu] at hs
    simp at hs

/-- Witness for C6 at a concrete input: one expert uid `e.0.0`; a DHT registry
that holds `e.0.0` makes generation raise, and an empty registry returns the
single-element list. -/
theorem claim_C6_dht_conflict_witness :
    generate_uids 1 1 0 "e.\x7blayer_id\x7d.\x7bexpert_id\x7d"
      (some (fun s => if s = "e.0.0" then some "peer" else none)) 10 = .error "NameError" ∧
    generate_uids 1 1 0 "e.\x7blayer_id\x7d.\x7bexpert_id\x7d"
      (some (fun _ => none)) 10 =
      .ok (generatedList 1 1 0 "e.\x7blayer_id\x7d.\x7bexpert_id\x7d") := by
  constructor
  · exact (claim_C6_dht_conflict 1 1 0 _ _ 10).1 ⟨⟨"e.0.0", 0, 0⟩, by decide, by decide⟩
  · exact (claim_C6_dht_conflict 1 1 0 _ _ 10).2 (fun u _ => rfl)

/-- Claim C8: the retry-budget parameter `attempts_per_expert` is accepted but
never consumed, so two `_generate_uids` calls differing only in that parameter
return identical results and fail in identical cases. -/
theorem claim_C8_attempts_per_expert_unused (ne nl ls : Int) (pat : String)
    (dht : Option (String → Option String)) (a1 a2 : Nat) :
    generate_uids ne nl ls pat dht a1 = generate_uids ne nl ls pat dht a2 := rfl

/-- Claim C7: the factory's weight-restoration step dispatches to the local
checkpoint restore exactly when `checkpoint_dir` is truthy and `hugginface_rep`
is not, to the HuggingFace restore exactly when `hugginface_rep` is truthy and
`checkpoint_dir` is not, and otherwise (both or neither truthy) performs no
restoration and raises nothing, leaving the freshly initialized weights as they
are. -/
theorem claim_C7_restore_dispatch (u : ExpertUID) (cd hf : Option String) :
    ((∃ d, load_expert_weights u cd hf = .fromCheckpoint u.uid d) ↔
      (pyTruthyOptPath cd = true ∧ pyTruthyOptStr hf = false)) ∧
    ((∃ r, load_expert_weights u cd hf = .fromHF r u.expert_id u.layer_id) ↔
      (pyTruthyOptPath cd = false ∧ pyTruthyOptStr hf = true)) ∧
    (load_expert_weights u cd hf = .noRestore ↔ pyTruthyOptPath cd = pyTruthyOptStr hf) := by
  cases hb1 : pyTruthyOptPath cd <;> cases hb2 : pyTruthyOptStr hf <;>
    simp [load_expert_weights, hb1, hb2]

/-- Claim C1 (code evaluated at the failing input): the header of `load_expert`
(checkpoints.py line 79) declares four positional parameters with no defaults
because of the `nn,Module` annotation typo, so the three-argument call
`load_expert(expert, expert_uid.uid, checkpoint_dir)` made by
`Server._load_expert_weights` (server.py line 231) does not bind — Python
raises `TypeError` before the body runs.  The body itself (lines 80-85), once
reachable, would leave the expert's parameters unchanged and only warn when the
checkpoint file is absent, exactly as the claim describes. -/
theorem claim_C1_load_expert_arity :
    pyCallBinds load_expert_params 0 3 = false ∧
    load_expert_params.length = 4 ∧
    (∀ (State : Type) (current : State), load_expert_body current none = (current, true)) :=
  ⟨by decide, by decide, fun _ _ => rfl⟩

/-- Claim C2 (code evaluated at the failing input): the cast loop of
`quantization` (bnb_quantization.py lines 39-42) evaluates `param.to(dtype)`
and discards the result, so it is the identity on the stored parameter dtypes;
in particular a 32-bit float parameter stays 32-bit float instead of becoming
the configuration's 16-bit compute dtype. -/
theorem claim_C2_cast_loop_noop :
    quantization_cast_loop [("weight", DType.float32)] = [("weight", DType.float32)] ∧
    DType.float32 ≠ BASE_QUANT_CONFIG.torch_dtype ∧
    (∀ state_dict, quantization_cast_loop state_dict = state_dict) := by
  refine ⟨rfl, by decide, ?_⟩
  intro state_dict
  simp [quantization_cast_loop]

/-- Claim C9: the routing rule returns exactly the three Mixtral source
parameter names mapped to `block.w1/w2/w3.weight`, and the loading
orchestration, whenever the weight map names a shard for each source key and
that shard stores a tensor under the key, assembles and loads exactly the state
dictionary sending each local name to the tensor stored under its source key in
the shard the weight map names for it. -/
theorem claim_C9_hf_loading {T : Type} (lid eid : Int)
    (wm : List (String × String)) (shards : String → List (String × T))
    (f1 f2 f3 : String) (t1 t2 t3 : T)
    (h1 : lookupD wm ("model.layers." ++ toString lid ++ ".block_sparse_moe.experts."
      ++ toString eid ++ ".w1.weight") = some f1)
    (h2 : lookupD (shards f1) ("model.layers." ++ toString lid ++ ".block_sparse_moe.experts."
      ++ toString eid ++ ".w1.weight") = some t1)
    (h3 : lookupD wm ("model.layers." ++ toString lid ++ ".block_sparse_moe.experts."
      ++ toString eid ++ ".w2.weight") = some f2)
    (h4 : lookupD (shards f2) ("model.layers." ++ toString lid ++ ".block_sparse_moe.experts."
      ++ toString eid ++ ".w2.weight") = some t2)
    (h5 : lookupD wm ("model.layers." ++ toString lid ++ ".block_sparse_moe.experts."
      ++ toString eid ++ ".w3.weight") = some f3)
    (h6 : lookupD (shards f3) ("model.layers." ++ toString lid ++ ".block_sparse_moe.experts."
      ++ toString eid ++ ".w3.weight") = some t3) :
    mixtral_rules lid eid =
      [("model.layers." ++ toString lid ++ ".block_sparse_moe.experts."
          ++ toString eid ++ ".w1.weight", "block.w1.weight"),
       ("model.layers." ++ toString lid ++ ".block_sparse_moe.experts."
          ++ toString eid ++ ".w2.weight", "block.w2.weight"),
       ("model.layers." ++ toString lid ++ ".block_sparse_moe.experts."
          ++ toString eid ++ ".w3.weight", "block.w3.weight")] ∧
    load_weights_from_hf eid lid wm shards =
      some [("block.w1.weight", t1), ("block.w2.weight", t2), ("block.w3.weight", t3)] := by
  refine ⟨rfl, ?_⟩
  simp [load_weights_from_hf, hf_build_state_dict, mixtral_rules,
    get_state_dict_by_key, get_expert_state_dict, h1, h2, h3, h4, h5, h6]

/-- Witness for C9 at a concrete input (`layer_id = 2`, `expert_id = 5`,
tensors as naturals): the three source keys live in two shards and loading
assembles the renamed three-entry dictionary. -/
theorem claim_C9_hf_loading_witness :
    load_weights_from_hf (T := Nat) 5 2
      [("model.layers.2.block_sparse_moe.experts.5.w1.weight", "model-00001-of-00002.safetensors"),
       ("model.layers.2.block_sparse_moe.experts.5.w2.weight", "model-00001-of-00002.safetensors"),
       ("model.layers.2.block_sparse_moe.experts.5.w3.weight", "model-00002-of-00002.safetensors")]
      (fun f => if f = "model-00001-of-00002.safetensors" then
        [("model.layers.2.block_sparse_moe.experts.5.w1.weight", 11),
         ("model.layers.2.block_sparse_moe.experts.5.w2.weight", 22)]
      else
        [("model.layers.2.block_sparse_moe.experts.5.w3.weight", 33)]) =
      some [("block.w1.weight", 11), ("block.w2.weight", 22), ("block.w3.weight", 33)] := by
  exact (claim_C9_hf_loading 2 5 _ _ "model-00001-of-00002.safetensors"
    "model-00001-of-00002.safetensors" "model-00002-of-00002.safetensors" 11 22 33
    (by decide) (by decide) (by decide) (by decide) (by decide) (by decide)).2

theorem proceed_replacement_eq_false_iff (mtnc : List String) (s : String) :
    proceed_replacement mtnc s = false ↔ ∃ key ∈ mtnc, key_blocks key s = true := by
  rw [Bool.eq_false_iff, proceed_replacement, Ne, List.all_eq_true]
  push_neg
  constructor
  · rintro ⟨key, hk, hb⟩
    refine ⟨key, hk, ?_⟩
    have hb' : ¬ (!(key_blocks key s)) = true := hb
    simpa using hb'
  · rintro ⟨key, hk, hb⟩
    refine ⟨key, hk, ?_⟩
    show ¬ (!(key_blocks key s)) = true
    simp [hb]

theorem exclusion_decision (mtnc : List String) (name s : String) :
    (!(mtnc.contains name) && proceed_replacement mtnc s) = false ↔
    (name ∈ mtnc ∨ ∃ key ∈ mtnc,
      key = s ∨ (pyInStr key s = true ∧ pyInStr (key ++ ".") s = true)) := by
  rw [Bool.and_eq_false_iff]
  have hc : ((!(mtnc.contains name)) = false) ↔ name ∈ mtnc := by simp
  have hx : (∃ key ∈ mtnc, key_blocks key s = true) ↔
      (∃ key ∈ mtnc, key = s ∨ (pyInStr key s = true ∧ pyInStr (key ++ ".") s = true)) := by
    apply exists_congr
    intro key
    apply and_congr_right
    intro _
    simp only [key_blocks, Bool.or_eq_true, Bool.and_eq_true, beq_iff_eq]
    tauto
  rw [hc, proceed_replacement_eq_false_iff, hx]

/-- Claim C3, amended.  A direct `nn.Linear` child is exempted from replacement
exactly when its bare attribute name is an element of the exclusion list, or
some exclusion entry equals the child's dotted path, or some exclusion entry
occurs as a substring anywhere in the dotted path with the entry followed by
`"."` also occurring as a substring.  (The original claim — exemption exactly on
path equality or a prefix ending at a segment boundary, with partial-segment
matches never excluding — is refuted by the counterexample theorem: the code's
test is a substring test, not a prefix test.) -/
theorem claim_C3_exclusion_amended (mtnc ckn : List String) (name : String)
    (i o : Nat) (b : Bool) (rest : NamedChildren) :
    ((replace_with_bnb_children mtnc ckn (.cons name (.linear i o b) rest)).1 =
        .cons name (.linear i o b) (replace_with_bnb_children mtnc ckn rest).1) ↔
    (name ∈ mtnc ∨ ∃ key ∈ mtnc,
      key = String.intercalate "." (ckn ++ [name]) ∨
      (pyInStr key (String.intercalate "." (ckn ++ [name])) = true ∧
       pyInStr (key ++ ".") (String.intercalate "." (ckn ++ [name])) = true)) := by
  rw [← exclusion_decision mtnc name (String.intercalate "." (ckn ++ [name]))]
  simp only [replace_with_bnb_children]
  cases hd : (!(mtnc.contains name)
      && proceed_replacement mtnc (String.intercalate "." (ckn ++ [name])))
  · simp [hd]
  · simp [hd]

/-- Claim C3, counterexample to the original statement: with exclusion list
`["b"]` the linear child at dotted path `"ab.c"` is NOT replaced (the traversal
returns the tree unchanged with the flag false), although `"b"` neither equals
`"ab.c"` nor is a prefix of it ending at a segment boundary — the entry `"b"`
matches only part of the segment `"ab"` yet prevents replacement. -/
theorem claim_C3_counterexample :
    replace_with_bnb_children ["b"] []
      (.cons "ab" (.container (.cons "c" (.linear 4 4 true) .nil)) .nil) =
      (.cons "ab" (.container (.cons "c" (.linear 4 4 true) .nil)) .nil, false) ∧
    claimed_path_excluded ["b"] "ab.c" = false :=
  ⟨rfl, by decide⟩

theorem fsLookup_fsUpdate : ∀ (es : FsEntries) (n : String) (v : FsTree) (m : String),
    fsLookup (fsUpdate es n v) m = if n = m then some v else fsLookup es m
  | .nil, n, v, m => by
      simp [fsUpdate, fsLookup]
  | .cons m0 t rest, n, v, m => by
      by_cases h1 : m0 = n
      · subst h1
        simp only [fsUpdate, if_pos rfl, fsLookup]
        by_cases h2 : m0 = m
        · subst h2
          simp
        · simp [h2]
      · simp only [fsUpdate, if_neg h1, fsLookup]
        by_cases h2 : m0 = m
        · subst h2
          have hnm : ¬ n = m0 := fun h => h1 h.symm
          simp [hnm]
        · simp [h2, fsLookup_fsUpdate rest n v m]

theorem fsLookup_not_mem : ∀ (es : FsEntries) (n : String), n ∉ fsNames es → fsLookup es n = none
  | .nil, _, _ => rfl
  | .cons m t rest, n, h => by
      have hne : ¬ m = n := by
        intro he
        exact h (by simp [fsNames, he])
      simp only [fsLookup, if_neg hne]
      exact fsLookup_not_mem rest n (fun hm => h (by simp [fsNames, hm]))

theorem lookupPath_cons_eq (es : FsEntries) (n : String) (q : List String) :
    lookupPath (n :: q) es =
      match q, fsLookup es n with
      | [], r => r
      | _ :: _, some (.dir sub) => lookupPath q sub
      | _ :: _, _ => none := by
  cases q with
  | nil => rfl
  | cons qh qt =>
      cases h : fsLookup es n with
      | none => simp [lookupPath, h]
      | some t =>
          cases t with
          | file c => simp [lookupPath, h]
          | dir sub => simp [lookupPath, h]

theorem lookupPath_congr (es1 es2 : FsEntries) (n : String) (q : List String)
    (h : fsLookup es1 n = fsLookup es2 n) :
    lookupPath (n :: q) es1 = lookupPath (n :: q) es2 := by
  rw [lookupPath_cons_eq, lookupPath_cons_eq, h]

theorem fsCompat_nil : ∀ (es : FsEntries), fsCompat es .nil = true
  | .nil => rfl
  | .cons name (.file c) rest => by
      simp [fsCompat, fsLookup, fsCompat_nil rest]
  | .cons name (.dir sub) rest => by
      simp [fsCompat, fsLookup, fsCompat_nil rest]

theorem fsCompat_ext : ∀ (src dst1 dst2 : FsEntries),
    (∀ m, m ∈ fsNames src → fsLookup dst1 m = fsLookup dst2 m) →
    fsCompat src dst1 = fsCompat src dst2
  | .nil, _, _, _ => rfl
  | .cons name (.file c) rest, dst1, dst2, h => by
      have hh := h name (by simp [fsNames])
      rw [fsCompat, fsCompat, hh,
        fsCompat_ext rest dst1 dst2 (fun m hm => h m (by simp [fsNames, hm]))]
  | .cons name (.dir sub) rest, dst1, dst2, h => by
      have hh := h name (by simp [fsNames])
      rw [fsCompat, fsCompat, hh,
        fsCompat_ext rest dst1 dst2 (fun m hm => h m (by simp [fsNames, hm]))]

theorem fsCompat_update_not_mem (rest dst : FsEntries) (name : String) (v : FsTree)
    (h : name ∉ fsNames rest) :
    fsCompat rest (fsUpdate dst name v) = fsCompat rest dst := by
  apply fsCompat_ext
  intro m hm
  rw [fsLookup_fsUpdate]
  have hne : ¬ name = m := fun he => h (he ▸ hm)
  rw [if_neg hne]

theorem fsWf_cons_iff (name : String) (t : FsTree) (rest : FsEntries) :
    fsWf (.cons name t rest) = true ↔
      (name ∉ fsNames rest ∧ fsWfTree t = true ∧ fsWf rest = true) := by
  simp [fsWf, Bool.and_eq_true, and_assoc]

theorem lookupPath_nil : ∀ (p : List String), lookupPath p FsEntries.nil = none
  | [] => rfl
  | [_] => rfl
  | _ :: _ :: _ => rfl

theorem copyTree_frame : ∀ (src dst : FsEntries), fsWf src = true → fsCompat src dst = true →
    ∀ (p : List String), lookupPath p src = none →
    lookupPath p (copyTree src dst) = lookupPath p dst
  | .nil, dst, _, _, p, _ => rfl
  | .cons name (.file c) rest, dst, hwf, hcompat, p, hp => by
      obtain ⟨hnm, -, hwr⟩ := (fsWf_cons_iff name _ rest).mp hwf
      simp only [fsCompat, Bool.and_eq_true] at hcompat
      obtain ⟨hhead, hcr⟩ := hcompat
      have hcr' : fsCompat rest (fsUpdate dst name (.file c)) = true := by
        rw [fsCompat_update_not_mem rest dst name _ hnm]
        exact hcr
      show lookupPath p (copyTree rest (fsUpdate dst name (.file c))) = lookupPath p dst
      cases p with
      | nil =>
          rw [copyTree_frame rest _ hwr hcr' [] rfl]
          rfl
      | cons n q =>
          by_cases hn : n = name
          · subst hn
            cases q with
            | nil =>
                rw [lookupPath_cons_eq] at hp
                simp [fsLookup] at hp
            | cons q0 qt =>
                have hrest : lookupPath (n :: q0 :: qt) rest = none := by
                  rw [lookupPath_cons_eq, fsLookup_not_mem rest n hnm]
                rw [copyTree_frame rest _ hwr hcr' _ hrest]
                rw [lookupPath_cons_eq, lookupPath_cons_eq]
                rw [fsLookup_fsUpdate, if_pos rfl]
                cases hd : fsLookup dst n with
                | none => rfl
                | some t =>
                    cases t with
                    | file c2 => rfl
                    | dir d =>
                        rw [hd] at hhead
                        simp at hhead
          · have hne : ¬ name = n := fun he => hn (Eq.symm he)
            have hlk : fsLookup (.cons name (.file c) rest) n = fsLookup rest n := by
              rw [fsLookup, if_neg hne]
            have hsrc : lookupPath (n :: q) rest = none := by
              rw [← lookupPath_congr _ rest n q hlk]
              exact hp
            rw [copyTree_frame rest _ hwr hcr' _ hsrc]
            apply lookupPath_congr
            rw [fsLookup_fsUpdate, if_neg hne]
  | .cons name (.dir sub) rest, dst, hwf, hcompat, p, hp => by
      obtain ⟨hnm, hwt, hwr⟩ := (fsWf_cons_iff name _ rest).mp hwf
      have hws : fsWf sub = true := hwt
      simp only [fsCompat, Bool.and_eq_true] at hcompat
      obtain ⟨hhead, hcr⟩ := hcompat
      have hcr' : fsCompat rest (fsUpdate dst name
          (.dir (copyTree sub (dirEntries (fsLookup dst name))))) = true := by
        rw [fsCompat_update_not_mem rest dst name _ hnm]
        exact hcr
      show lookupPath p (copyTree rest (fsUpdate dst name
        (.dir (copyTree sub (dirEntries (fsLookup dst name)))))) = lookupPath p dst
      cases p with
      | nil =>
          rw [copyTree_frame rest _ hwr hcr' [] rfl]
          rfl
      | cons n q =>
          by_cases hn : n = name
          · subst hn
            cases q with
            | nil =>
                rw [lookupPath_cons_eq] at hp
                simp [fsLookup] at hp
            | cons q0 qt =>
                have hqsub : lookupPath (q0 :: qt) sub = none := by
                  rw [lookupPath_cons_eq] at hp
                  simpa [fsLookup] using hp
                have hrest : lookupPath (n :: q0 :: qt) rest = none := by
                  rw [lookupPath_cons_eq, fsLookup_not_mem rest n hnm]
                rw [copyTree_frame rest _ hwr hcr' _ hrest]
                rw [lookupPath_cons_eq, lookupPath_cons_eq]
                rw [fsLookup_fsUpdate, if_pos rfl]
                cases hd : fsLookup dst n with
                | none =>
                    show lookupPath (q0 :: qt) (copyTree sub (dirEntries none)) = none
                    rw [copyTree_frame sub (dirEntries none) hws (fsCompat_nil sub) _ hqsub]
                    exact lookupPath_nil _
                | some t =>
                    cases t with
                    | file c2 =>
                        rw [hd] at hhead
                        simp at hhead
                    | dir d =>
                        rw [hd] at hhead
                        show lookupPath (q0 :: qt) (copyTree sub (dirEntries (some (.dir d)))) =
                          lookupPath (q0 :: qt) d
                        have hcsd : fsCompat sub (dirEntries (some (.dir d))) = true := by
                          simpa using hhead
                        rw [copyTree_frame sub (dirEntries (some (.dir d))) hws hcsd _ hqsub]
                        rfl
          · have hne : ¬ name = n := fun he => hn (Eq.symm he)
            have hlk : fsLookup (.cons name (.dir sub) rest) n = fsLookup rest n := by
              rw [fsLookup, if_neg hne]
            have hsrc : lookupPath (n :: q) rest = none := by
              rw [← lookupPath_congr _ rest n q hlk]
              exact hp
            rw [copyTree_frame rest _ hwr hcr' _ hsrc]
            apply lookupPath_congr
            rw [fsLookup_fsUpdate, if_neg hne]

theorem copyTree_preserves : ∀ (src dst : FsEntries), fsWf src = true → fsCompat src dst = true →
    ∀ (p : List String) (t : FsTree), lookupPath p dst = some t →
    ∃ t2, lookupPath p (copyTree src dst) = some t2
  | .nil, dst, _, _, p, t, hp => ⟨t, hp⟩
  | .cons name (.file c) rest, dst, hwf, hcompat, p, t, hp => by
      obtain ⟨hnm, -, hwr⟩ := (fsWf_cons_iff name _ rest).mp hwf
      simp only [fsCompat, Bool.and_eq_true] at hcompat
      obtain ⟨hhead, hcr⟩ := hcompat
      have hcr' : fsCompat rest (fsUpdate dst name (.file c)) = true := by
        rw [fsCompat_update_not_mem rest dst name _ hnm]
        exact hcr
      show ∃ t2, lookupPath p (copyTree rest (fsUpdate dst name (.file c))) = some t2
      cases p with
      | nil => exact absurd hp (by simp [lookupPath])
      | cons n q =>
          by_cases hn : n = name
          · subst hn
            cases q with
            | nil =>
                apply copyTree_preserves rest _ hwr hcr' [n] (.file c)
                rw [lookupPath_cons_eq, fsLookup_fsUpdate, if_pos rfl]
            | cons q0 qt =>
                rw [lookupPath_cons_eq] at hp
                cases hdd : fsLookup dst n with
                | none => rw [hdd] at hp; exact absurd hp (by simp)
                | some tt =>
                    cases tt with
                    | file c2 => rw [hdd] at hp; exact absurd hp (by simp)
                    | dir dd =>
                        rw [hdd] at hhead
                        simp at hhead
          · have hne : ¬ name = n := fun he => hn (Eq.symm he)
            apply copyTree_preserves rest _ hwr hcr' (n :: q) t
            rw [lookupPath_congr (fsUpdate dst name (.file c)) dst n q
              (by rw [fsLookup_fsUpdate, if_neg hne])]
            exact hp
  | .cons name (.dir sub) rest, dst, hwf, hcompat, p, t, hp => by
      obtain ⟨hnm, hwt, hwr⟩ := (fsWf_cons_iff name _ rest).mp hwf
      have hws : fsWf sub = true := hwt
      simp only [fsCompat, Bool.and_eq_true] at hcompat
      obtain ⟨hhead, hcr⟩ := hcompat
      have hcr' : fsCompat rest (fsUpdate dst name
          (.dir (copyTree sub (dirEntries (fsLookup dst name))))) = true := by
        rw [fsCompat_update_not_mem rest dst name _ hnm]
        exact hcr
      show ∃ t2, lookupPath p (copyTree rest (fsUpdate dst name
        (.dir (copyTree sub (dirEntries (fsLookup dst name)))))) = some t2
      cases p with
      | nil => exact absurd hp (by simp [lookupPath])
      | cons n q =>
          by_cases hn : n = name
          · subst hn
            cases q with
            | nil =>
                apply copyTree_preserves rest _ hwr hcr' [n]
                  (.dir (copyTree sub (dirEntries (fsLookup dst n))))
                rw [lookupPath_cons_eq, fsLookup_fsUpdate, if_pos rfl]
            | cons q0 qt =>
                rw [lookupPath_cons_eq] at hp
                cases hdd : fsLookup dst n with
                | none => rw [hdd] at hp; exact absurd hp (by simp)
                | some tt =>
                    cases tt with
                    | file c2 => rw [hdd] at hp; exact absurd hp (by simp)
                    | dir dd =>
                        rw [hdd] at hp hhead
                        have hcsd : fsCompat sub dd = true := by simpa using hhead
                        have hsub := copyTree_preserves sub dd hws hcsd (q0 :: qt) t
                          (by simpa using hp)
                        obtain ⟨t2, ht2⟩ := hsub
                        rw [hdd] at hcr'
                        apply copyTree_preserves rest _ hwr hcr' (n :: q0 :: qt) t2
                        rw [lookupPath_cons_eq, fsLookup_fsUpdate, if_pos rfl]
                        show lookupPath (q0 :: qt) (copyTree sub (dirEntries (some (.dir dd))))
                          = some t2
                        exact ht2
          · have hne : ¬ name = n := fun he => hn (Eq.symm he)
            apply copyTree_preserves rest _ hwr hcr' (n :: q) t
            rw [lookupPath_congr (fsUpdate dst name
                (.dir (copyTree sub (dirEntries (fsLookup dst name))))) dst n q
              (by rw [fsLookup_fsUpdate, if_neg hne])]
            exact hp

theorem mfileName_inj {a b : String} (h : mfileName a = mfileName b) : a = b := by
  have hd := congrArg String.data h
  simp only [mfileName, String.data_append] at hd
  have h2 := List.append_cancel_left (List.append_assoc _ _ _ ▸ hd :
    "module_".data ++ (a.data ++ ".safetensors".data) =
      "module_".data ++ (b.data ++ ".safetensors".data))
  exact String.ext (List.append_inj' h2 rfl).1

theorem cfileName_inj {a b : String} (h : cfileName a = cfileName b) : a = b := by
  have hd := congrArg String.data h
  simp only [cfileName, String.data_append] at hd
  have h2 := List.append_cancel_left (List.append_assoc _ _ _ ▸ hd :
    "checkpoint_".data ++ (a.data ++ ".safetensors".data) =
      "checkpoint_".data ++ (b.data ++ ".safetensors".data))
  exact String.ext (List.append_inj' h2 rfl).1

theorem mfileName_head (a : String) : (mfileName a).data.head? = some 'm' := rfl

theorem cfileName_head (a : String) : (cfileName a).data.head? = some 'c' := rfl

theorem mfileName_six (a : String) : ((mfileName a).data.drop 6).head? = some '_' := rfl

theorem mfileName_ne_cfileName (a b : String) : mfileName a ≠ cfileName b := by
  intro h
  have hh : (mfileName a).data.head? = (cfileName b).data.head? := by rw [h]
  rw [mfileName_head, cfileName_head] at hh
  simp at hh

theorem mfileName_ne_stableM (a : String) : mfileName a ≠ "module.safetensors" := by
  intro h
  have hh : ((mfileName a).data.drop 6).head? = ("module.safetensors".data.drop 6).head? := by
    rw [h]
  rw [mfileName_six] at hh
  simp at hh

theorem mfileName_ne_stableC (a : String) : mfileName a ≠ "checkpoint_last.safetensors" := by
  intro h
  have hh : (mfileName a).data.head? = ("checkpoint_last.safetensors".data).head? := by rw [h]
  rw [mfileName_head] at hh
  simp at hh

theorem cfileName_ne_stableM (a : String) : cfileName a ≠ "module.safetensors" := by
  intro h
  have hh : (cfileName a).data.head? = ("module.safetensors".data).head? := by rw [h]
  rw [cfileName_head] at hh
  simp at hh

theorem cfileName_ne_stableC {a : String} (ha : a ≠ "last") :
    cfileName a ≠ "checkpoint_last.safetensors" := by
  intro h
  apply ha
  exact cfileName_inj (h.trans rfl)

theorem fsNames_fsUpdate : ∀ (es : FsEntries) (n : String) (v : FsTree),
    fsNames (fsUpdate es n v) =
      if n ∈ fsNames es then fsNames es else fsNames es ++ [n]
  | .nil, n, v => by simp [fsUpdate, fsNames]
  | .cons m t rest, n, v => by
      by_cases h1 : m = n
      · subst h1
        simp [fsUpdate, fsNames]
      · have hne : ¬ (n = m) := fun he => h1 (Eq.symm he)
        simp only [fsUpdate, if_neg h1, fsNames, fsNames_fsUpdate rest n v]
        by_cases h2 : n ∈ fsNames rest
        · simp [h2, hne]
        · simp [h2, hne]

theorem fsLookup_copyTree_not_mem : ∀ (src dst : FsEntries) (n : String),
    n ∉ fsNames src → fsLookup (copyTree src dst) n = fsLookup dst n
  | .nil, dst, n, _ => rfl
  | .cons m (.file c) rest, dst, n, h => by
      have hne : ¬ m = n := fun he => h (by simp [fsNames, he])
      have hnr : n ∉ fsNames rest := fun hm => h (by simp [fsNames, hm])
      show fsLookup (copyTree rest (fsUpdate dst m (.file c))) n = fsLookup dst n
      rw [fsLookup_copyTree_not_mem rest _ n hnr, fsLookup_fsUpdate, if_neg hne]
  | .cons m (.dir sub) rest, dst, n, h => by
      have hne : ¬ m = n := fun he => h (by simp [fsNames, he])
      have hnr : n ∉ fsNames rest := fun hm => h (by simp [fsNames, hm])
      show fsLookup (copyTree rest (fsUpdate dst m
        (.dir (copyTree sub (dirEntries (fsLookup dst m)))))) n = fsLookup dst n
      rw [fsLookup_copyTree_not_mem rest _ n hnr, fsLookup_fsUpdate, if_neg hne]

theorem fsLookup_copyTree_dir : ∀ (src dst : FsEntries) (name : String) (sub : FsEntries),
    (fsNames src).Nodup → fsLookup src name = some (.dir sub) →
    fsLookup (copyTree src dst) name =
      some (.dir (copyTree sub (dirEntries (fsLookup dst name))))
  | .nil, _, _, _, _, hl => by simp [fsLookup] at hl
  | .cons m t rest, dst, name, sub, hnd, hl => by
      have hnd' : m ∉ fsNames rest ∧ (fsNames rest).Nodup := by
        simpa [fsNames] using hnd
      by_cases hm : m = name
      · subst hm
        rw [fsLookup, if_pos rfl] at hl
        cases t with
        | file c => exact absurd hl (by simp)
        | dir s2 =>
            have hs : s2 = sub := by simpa using hl
            subst hs
            show fsLookup (copyTree rest (fsUpdate dst m
              (.dir (copyTree s2 (dirEntries (fsLookup dst m)))))) m =
              some (.dir (copyTree s2 (dirEntries (fsLookup dst m))))
            rw [fsLookup_copyTree_not_mem rest _ m hnd'.1, fsLookup_fsUpdate, if_pos rfl]
      · have hl' : fsLookup rest name = some (.dir sub) := by
          rw [fsLookup, if_neg hm] at hl
          exact hl
        cases t with
        | file c =>
            show fsLookup (copyTree rest (fsUpdate dst m (.file c))) name =
              some (.dir (copyTree sub (dirEntries (fsLookup dst name))))
            rw [fsLookup_copyTree_dir rest _ name sub hnd'.2 hl', fsLookup_fsUpdate, if_neg hm]
        | dir s2 =>
            show fsLookup (copyTree rest (fsUpdate dst m
              (.dir (copyTree s2 (dirEntries (fsLookup dst m)))))) name =
              some (.dir (copyTree sub (dirEntries (fsLookup dst name))))
            rw [fsLookup_copyTree_dir rest _ name sub hnd'.2 hl', fsLookup_fsUpdate, if_neg hm]

theorem fsNames_stagingTree : ∀ (experts : List String) (ts : String),
    fsNames (stagingTree experts ts) = experts
  | [], _ => rfl
  | e :: rest, ts => by
      show fsNames (.cons e (.dir (stagedExpertDir ts)) (stagingTree rest ts)) = e :: rest
      rw [fsNames, fsNames_stagingTree rest ts]

theorem fsLookup_stagingTree : ∀ (experts : List String) (ts name : String),
    name ∈ experts →
    fsLookup (stagingTree experts ts) name = some (.dir (stagedExpertDir ts))
  | [], _, _, h => absurd h (by simp)
  | e :: rest, ts, name, h => by
      show fsLookup (.cons e (.dir (stagedExpertDir ts)) (stagingTree rest ts)) name = _
      by_cases he : e = name
      · rw [fsLookup, if_pos he]
      · rw [fsLookup, if_neg he]
        have : name ∈ rest := by
          cases h with
          | head => exact absurd rfl he
          | tail _ h2 => exact h2
        exact fsLookup_stagingTree rest ts name this

theorem store_experts_lookup (experts : List String) (ts name : String) (ckpt : FsEntries)
    (hnd : experts.Nodup) (hm : name ∈ experts) :
    fsLookup (store_experts_fs experts ts ckpt) name =
      some (.dir (copyTree (stagedExpertDir ts) (dirEntries (fsLookup ckpt name)))) := by
  apply fsLookup_copyTree_dir
  · rw [fsNames_stagingTree]
    exact hnd
  · exact fsLookup_stagingTree experts ts name hm

theorem store_cycles_lookup : ∀ (tss : List String) (experts : List String) (name : String)
    (ckpt : FsEntries) (d0 : FsEntries), experts.Nodup → name ∈ experts →
    fsLookup ckpt name = some (.dir d0) →
    fsLookup (store_cycles experts tss ckpt) name = some (.dir (entriesAfter tss d0))
  | [], experts, name, ckpt, d0, _, _, h => h
  | ts :: rest, experts, name, ckpt, d0, hnd, hm, h => by
      show fsLookup (store_cycles experts rest (store_experts_fs experts ts ckpt)) name =
        some (.dir (entriesAfter rest (copyTree (stagedExpertDir ts) d0)))
      have h1 := store_experts_lookup experts ts name ckpt hnd hm
      rw [h] at h1
      exact store_cycles_lookup rest experts name _ _ hnd hm h1

theorem fsNames_cycle (ts : String) (es : FsEntries)
    (hm1 : mfileName ts ∉ fsNames es) (hc1 : cfileName ts ∉ fsNames es)
    (hsm : "module.safetensors" ∈ fsNames es)
    (hsc : "checkpoint_last.safetensors" ∈ fsNames es) :
    fsNames (copyTree (stagedExpertDir ts) es) =
      fsNames es ++ [mfileName ts, cfileName ts] := by
  show fsNames (fsUpdate (fsUpdate (fsUpdate (fsUpdate es (mfileName ts) (.file 0))
    (cfileName ts) (.file 1)) "module.safetensors" (.file 0))
    "checkpoint_last.safetensors" (.file 1)) = _
  have e1 : fsNames (fsUpdate es (mfileName ts) (.file 0)) = fsNames es ++ [mfileName ts] := by
    rw [fsNames_fsUpdate, if_neg hm1]
  have hc1' : cfileName ts ∉ fsNames es ++ [mfileName ts] := by
    intro hmem
    rcases List.mem_append.mp hmem with h | h
    · exact hc1 h
    · have h2 : cfileName ts = mfileName ts := by simpa using h
      exact mfileName_ne_cfileName ts ts h2.symm
  have e2 : fsNames (fsUpdate (fsUpdate es (mfileName ts) (.file 0)) (cfileName ts) (.file 1)) =
      fsNames es ++ [mfileName ts] ++ [cfileName ts] := by
    rw [fsNames_fsUpdate, e1, if_neg hc1']
  have hsm' : "module.safetensors" ∈ fsNames es ++ [mfileName ts] ++ [cfileName ts] := by
    exact List.mem_append.mpr (Or.inl (List.mem_append.mpr (Or.inl hsm)))
  have e3 : fsNames (fsUpdate (fsUpdate (fsUpdate es (mfileName ts) (.file 0))
      (cfileName ts) (.file 1)) "module.safetensors" (.file 0)) =
      fsNames es ++ [mfileName ts] ++ [cfileName ts] := by
    rw [fsNames_fsUpdate, e2, if_pos hsm']
  have hsc' : "checkpoint_last.safetensors" ∈ fsNames es ++ [mfileName ts] ++ [cfileName ts] := by
    exact List.mem_append.mpr (Or.inl (List.mem_append.mpr (Or.inl hsc)))
  rw [fsNames_fsUpdate, e3, if_pos hsc']
  simp [List.append_assoc]

theorem fsNames_entriesAfter : ∀ (tss : List String) (es : FsEntries),
    tss.Nodup → (∀ ts ∈ tss, ts ≠ "last") →
    (∀ ts ∈ tss, mfileName ts ∉ fsNames es ∧ cfileName ts ∉ fsNames es) →
    "module.safetensors" ∈ fsNames es → "checkpoint_last.safetensors" ∈ fsNames es →
    fsNames (entriesAfter tss es) =
      fsNames es ++ tss.flatMap (fun ts => [mfileName ts, cfileName ts])
  | [], es, _, _, _, _, _ => by simp [entriesAfter]
  | ts :: rest, es, hnd, hlast, hfresh, hsm, hsc => by
      have hts := hfresh ts (by simp)
      have h1 := fsNames_cycle ts es hts.1 hts.2 hsm hsc
      have hnd' : rest.Nodup := (List.nodup_cons.mp hnd).2
      have htsrest : ts ∉ rest := (List.nodup_cons.mp hnd).1
      have hfresh' : ∀ ts2 ∈ rest,
          mfileName ts2 ∉ fsNames (copyTree (stagedExpertDir ts) es) ∧
          cfileName ts2 ∉ fsNames (copyTree (stagedExpertDir ts) es) := by
        intro ts2 hts2
        have hne : ts2 ≠ ts := fun he => htsrest (he ▸ hts2)
        rw [h1]
        constructor
        · intro hmem
          rcases List.mem_append.mp hmem with h | h
          · exact (hfresh ts2 (by simp [hts2])).1 h
          · rcases List.mem_cons.mp h with h2 | h2
            · exact hne (mfileName_inj h2)
            · exact mfileName_ne_cfileName ts2 ts (by simpa using h2)
        · intro hmem
          rcases List.mem_append.mp hmem with h | h
          · exact (hfresh ts2 (by simp [hts2])).2 h
          · rcases List.mem_cons.mp h with h2 | h2
            · exact mfileName_ne_cfileName ts ts2 h2.symm
            · exact hne (cfileName_inj (by simpa using h2))
      have hsm' : "module.safetensors" ∈ fsNames (copyTree (stagedExpertDir ts) es) := by
        rw [h1]
        exact List.mem_append.mpr (Or.inl hsm)
      have hsc' : "checkpoint_last.safetensors" ∈ fsNames (copyTree (stagedExpertDir ts) es) := by
        rw [h1]
        exact List.mem_append.mpr (Or.inl hsc)
      show fsNames (entriesAfter rest (copyTree (stagedExpertDir ts) es)) = _
      rw [fsNames_entriesAfter rest _ hnd' (fun t2 h2 => hlast t2 (by simp [h2])) hfresh'
        hsm' hsc', h1]
      simp [List.append_assoc]

theorem length_flatMap_pair : ∀ (l : List String),
    (l.flatMap (fun ts => [mfileName ts, cfileName ts])).length = 2 * l.length
  | [] => rfl
  | t :: rest => by
      show ([mfileName t, cfileName t] ++
        rest.flatMap (fun ts => [mfileName ts, cfileName ts])).length = 2 * (t :: rest).length
      rw [List.length_append, length_flatMap_pair rest]
      simp [List.length_cons]
      omega

/-- Claim C4: starting from a fresh (empty) checkpoint directory, after N ≥ 1
successful `store_experts` cycles with pairwise distinct computed timestamps
(ISO-8601 timestamps, in particular never the literal `"last"`), each hosted
expert's checkpoint subdirectory holds exactly `2N + 2` entries: the N
timestamped module files, the N timestamped backend files, and the two stable
names `module.safetensors` and `checkpoint_last.safetensors`. -/
theorem claim_C4_store_cycles_entry_count (experts : List String) (tss : List String) (name : String)
    (hnd : experts.Nodup) (hm : name ∈ experts) (hne : tss ≠ [])
    (htnd : tss.Nodup) (hlast : ∀ ts ∈ tss, ts ≠ "last") :
    ∃ es, fsLookup (store_cycles experts tss .nil) name = some (.dir es) ∧
      (fsNames es).length = 2 * tss.length + 2 ∧
      "module.safetensors" ∈ fsNames es ∧ "checkpoint_last.safetensors" ∈ fsNames es ∧
      (∀ ts ∈ tss, mfileName ts ∈ fsNames es ∧ cfileName ts ∈ fsNames es) := by
  obtain ⟨t0, rest, rfl⟩ := List.exists_cons_of_ne_nil hne
  have h1' : fsLookup (store_experts_fs experts t0 FsEntries.nil) name =
      some (.dir (copyTree (stagedExpertDir t0) FsEntries.nil)) :=
    store_experts_lookup experts t0 name .nil hnd hm
  have h2 := store_cycles_lookup rest experts name _ _ hnd hm h1'
  have hmc : cfileName t0 ∉ [mfileName t0] := by
    intro h
    exact mfileName_ne_cfileName t0 t0 ((List.mem_singleton.mp h).symm)
  have u2 : fsNames (fsUpdate (fsUpdate FsEntries.nil (mfileName t0) (.file 0))
      (cfileName t0) (.file 1)) = [mfileName t0, cfileName t0] := by
    rw [fsNames_fsUpdate]
    rw [show fsNames (fsUpdate FsEntries.nil (mfileName t0) (.file 0)) = [mfileName t0] from rfl]
    rw [if_neg hmc]
    rfl
  have hsm2 : "module.safetensors" ∉ [mfileName t0, cfileName t0] := by
    intro h
    rcases List.mem_cons.mp h with h2 | h2
    · exact mfileName_ne_stableM t0 h2.symm
    · exact cfileName_ne_stableM t0 (List.mem_singleton.mp h2).symm
  have u3 : fsNames (fsUpdate (fsUpdate (fsUpdate FsEntries.nil (mfileName t0) (.file 0))
      (cfileName t0) (.file 1)) "module.safetensors" (.file 0)) =
      [mfileName t0, cfileName t0, "module.safetensors"] := by
    rw [fsNames_fsUpdate, u2, if_neg hsm2]
    rfl
  have hlt0 : t0 ≠ "last" := hlast t0 (by simp)
  have hsc3 : "checkpoint_last.safetensors" ∉
      [mfileName t0, cfileName t0, "module.safetensors"] := by
    intro h
    rcases List.mem_cons.mp h with h2 | h2
    · exact mfileName_ne_stableC t0 h2.symm
    · rcases List.mem_cons.mp h2 with h3 | h3
      · exact cfileName_ne_stableC hlt0 h3.symm
      · have h4 : "checkpoint_last.safetensors" = "module.safetensors" := List.mem_singleton.mp h3
        exact absurd h4 (by decide)
  have hE0 : fsNames (copyTree (stagedExpertDir t0) FsEntries.nil) =
      [mfileName t0, cfileName t0, "module.safetensors", "checkpoint_last.safetensors"] := by
    show fsNames (fsUpdate (fsUpdate (fsUpdate (fsUpdate FsEntries.nil (mfileName t0) (.file 0))
      (cfileName t0) (.file 1)) "module.safetensors" (.file 0))
      "checkpoint_last.safetensors" (.file 1)) = _
    rw [fsNames_fsUpdate, u3, if_neg hsc3]
    rfl
  have hnd2 : rest.Nodup := (List.nodup_cons.mp htnd).2
  have ht0rest : t0 ∉ rest := (List.nodup_cons.mp htnd).1
  have hlast2 : ∀ ts ∈ rest, ts ≠ "last" := fun ts h => hlast ts (by simp [h])
  have hfreshE0 : ∀ ts2 ∈ rest,
      mfileName ts2 ∉ fsNames (copyTree (stagedExpertDir t0) FsEntries.nil) ∧
      cfileName ts2 ∉ fsNames (copyTree (stagedExpertDir t0) FsEntries.nil) := by
    intro ts2 hts2
    have hne2 : ts2 ≠ t0 := fun he => ht0rest (he ▸ hts2)
    rw [hE0]
    constructor
    · intro h
      rcases List.mem_cons.mp h with h2 | h2
      · exact hne2 (mfileName_inj h2)
      · rcases List.mem_cons.mp h2 with h3 | h3
        · exact mfileName_ne_cfileName ts2 t0 h3
        · rcases List.mem_cons.mp h3 with h4 | h4
          · exact mfileName_ne_stableM ts2 h4
          · exact mfileName_ne_stableC ts2 (List.mem_singleton.mp h4)
    · intro h
      rcases List.mem_cons.mp h with h2 | h2
      · exact mfileName_ne_cfileName t0 ts2 h2.symm
      · rcases List.mem_cons.mp h2 with h3 | h3
        · exact hne2 (cfileName_inj h3)
        · rcases List.mem_cons.mp h3 with h4 | h4
          · exact cfileName_ne_stableM ts2 h4
          · exact cfileName_ne_stableC (hlast2 ts2 hts2) (List.mem_singleton.mp h4)
  have hnames := fsNames_entriesAfter rest (copyTree (stagedExpertDir t0) FsEntries.nil)
    hnd2 hlast2 hfreshE0 (by rw [hE0]; simp) (by rw [hE0]; simp)
  refine ⟨entriesAfter rest (copyTree (stagedExpertDir t0) FsEntries.nil), h2, ?_, ?_, ?_, ?_⟩
  · rw [hnames, hE0, List.length_append, length_flatMap_pair]
    simp [List.length_cons]
    omega
  · rw [hnames, hE0]
    simp
  · rw [hnames, hE0]
    simp
  · intro ts hts
    rcases List.mem_cons.mp hts with rfl | hts2
    · rw [hnames, hE0]
      constructor
      · exact List.mem_append.mpr (Or.inl (by simp))
      · exact List.mem_append.mpr (Or.inl (by simp))
    · rw [hnames]
      constructor
      · exact List.mem_append.mpr (Or.inr (List.mem_flatMap.mpr ⟨ts, hts2, by simp⟩))
      · exact List.mem_append.mpr (Or.inr (List.mem_flatMap.mpr ⟨ts, hts2, by simp⟩))

/-- Witness for C4 at a concrete input: one expert, three store cycles with
distinct timestamps; the subdirectory ends with 2·3 + 2 = 8 entries. -/
theorem claim_C4_store_cycles_entry_count_witness :
    ∃ es, fsLookup (store_cycles ["test_expert"] ["t1", "t2", "t3"] FsEntries.nil)
        "test_expert" = some (.dir es) ∧
      (fsNames es).length = 2 * (["t1", "t2", "t3"] : List String).length + 2 ∧
      "module.safetensors" ∈ fsNames es ∧ "checkpoint_last.safetensors" ∈ fsNames es ∧
      (∀ ts ∈ (["t1", "t2", "t3"] : List String),
        mfileName ts ∈ fsNames es ∧ cfileName ts ∈ fsNames es) :=
  claim_C4_store_cycles_entry_count ["test_expert"] ["t1", "t2", "t3"] "test_expert"
    (by decide) (by decide) (by decide) (by decide) (by decide)

/-- Claim C10: on kind-compatible trees (no name is a file on one side and a
directory on the other — the domain where the `copyTree` model matches Python's
`copy_tree` exactly), `copy_tree` merges and never deletes: every destination
entry whose relative path does not occur in the source is exactly unchanged,
every entry present in the destination is still present afterwards, and
nothing is written at a path absent from both trees (so all writes come from
the source; the destination is created when absent, modelled by `dst = nil`). -/
theorem claim_C10_copy_tree_merge (src dst : FsEntries)
    (hwf : fsWf src = true) (hcompat : fsCompat src dst = true) :
    (∀ p, lookupPath p src = none → lookupPath p (copyTree src dst) = lookupPath p dst) ∧
    (∀ p t, lookupPath p dst = some t → ∃ t2, lookupPath p (copyTree src dst) = some t2) ∧
    (∀ p, lookupPath p src = none → lookupPath p dst = none →
      lookupPath p (copyTree src dst) = none) :=
  ⟨fun p hp => copyTree_frame src dst hwf hcompat p hp,
   fun p t hp => copyTree_preserves src dst hwf hcompat p t hp,
   fun p hs hd => by
    rw [copyTree_frame src dst hwf hcompat p hs]
    exact hd⟩

/-- Witness for C10 at a concrete input: a staged expert directory merged over
an existing checkpoint directory that also holds an older timestamped file and
an unrelated entry; the old file and the unrelated entry survive unchanged. -/
theorem claim_C10_copy_tree_merge_witness :
    (fsWf (.cons "e" (.dir (.cons "module_t2" (.file 0)
        (.cons "module.safetensors" (.file 0) .nil))) .nil) = true ∧
     fsCompat (.cons "e" (.dir (.cons "module_t2" (.file 0)
        (.cons "module.safetensors" (.file 0) .nil))) .nil)
       (.cons "e" (.dir (.cons "module_t1" (.file 7)
        (.cons "module.safetensors" (.file 9) .nil))) (.cons "old" (.file 5) .nil)) = true) ∧
    lookupPath ["e", "module_t1"]
      (copyTree (.cons "e" (.dir (.cons "module_t2" (.file 0)
        (.cons "module.safetensors" (.file 0) .nil))) .nil)
       (.cons "e" (.dir (.cons "module_t1" (.file 7)
        (.cons "module.safetensors" (.file 9) .nil))) (.cons "old" (.file 5) .nil))) =
      lookupPath ["e", "module_t1"]
      (.cons "e" (.dir (.cons "module_t1" (.file 7)
        (.cons "module.safetensors" (.file 9) .nil))) (.cons "old" (.file 5) .nil)) ∧
    (∃ t2, lookupPath ["old"]
      (copyTree (.cons "e" (.dir (.cons "module_t2" (.file 0)
        (.cons "module.safetensors" (.file 0) .nil))) .nil)
       (.cons "e" (.dir (.cons "module_t1" (.file 7)
        (.cons "module.safetensors" (.file 9) .nil))) (.cons "old" (.file 5) .nil))) =
      some t2) := by
  refine ⟨⟨rfl, rfl⟩, ?_, ?_⟩
  · exact (claim_C10_copy_tree_merge _ _ (by rfl) (by rfl)).1 ["e", "module_t1"] (by rfl)
  · exact (claim_C10_copy_tree_merge _ _ (by rfl) (by rfl)).2.1 ["old"] (.file 5) (by rfl)
